import Mathlib

/-!
Verification development for the blacksheepwall result-aggregation core.

The definitions below are a shallow embedding of the Go sources:
  - `Result`, `resultLess`, `sortGo` embed the result type and the
    `Results.Less` comparator together with the stdlib insertion sort
    that `sort.Sort` bottoms out in (src/unnamed/part_000).
  - `parseIPv4` embeds the IPv4 dotted-quad path of `net.ParseIP(..).To4()`
    (pre-Go-1.17 semantics: decimal fields, value at most 255).
  - `DnsEnv`, `fcrdnsInsert`, `plainInsert`, `aggregateRecord`,
    `aggregateSlice`, `runAggregate` embed the result-ingesting goroutine
    of `main` (src/blacksheepwall.go lines 357-394) over an abstract DNS
    environment.
  - `domainRE`/`domainMatch` embed the `domainReg` regular expression
    (src/blacksheepwall.go line 194) via a Brzozowski-derivative matcher.
  - `workerEmits`, `workerErrorLog`, `workerRun` embed the worker pool
    body (src/blacksheepwall.go lines 329-355).
  - `producerTrace` embeds the producer's shutdown protocol
    (src/blacksheepwall.go lines 500-516) as an event trace.
  - `adjustTimeout` embeds the timeout flag handling (lines 204, 247-250).
-/

namespace BSW

/-- Result is used to store a single IP and Hostname record
(src/unnamed/part_000 lines 12-16). -/
structure Result where
  Source : String
  IP : String
  Hostname : String
deriving DecidableEq, Repr

/-- Results is a slice of Result (src/unnamed/part_000 line 19). -/
def Results := List Result

/-- Split a character list at every dot, mirroring the field separation
performed by the IPv4 path of Go's `net.ParseIP`. -/
def splitDots : List Char → List (List Char)
  | [] => [[]]
  | c :: t =>
    let r := splitDots t
    if c = '.' then [] :: r
    else
      match r with
      | [] => [[c]]
      | h :: t2 => (c :: h) :: t2

/-- Parse one decimal field of a dotted quad: nonempty, all digits,
value at most 255 (Go's `dtoi` plus the 0xFF bound in `parseIPv4`). -/
def octet? (s : List Char) : Option Nat :=
  if s.isEmpty then none
  else if s.all (fun c => c.isDigit) then
    let n := s.foldl (fun n c => n * 10 + (c.toNat - 48)) 0
    if n ≤ 255 then some n else none
  else none

/-- Embeds `net.ParseIP(s).To4()` for dotted-quad strings, returning the
address as its 32-bit big-endian value (`binary.BigEndian.Uint32`); `none`
models a nil result (malformed input or an IPv6 literal). -/
def parseIPv4 (s : String) : Option Nat :=
  match (splitDots s.toList).map octet? with
  | [some a, some b, some c, some d] => some (((a * 256 + b) * 256 + c) * 256 + d)
  | _ => none

/-- The numeric value of a record's IP field when it parses (0 otherwise). -/
def ipVal (r : Result) : Nat := (parseIPv4 r.IP).getD 0

/-- Element-level form of `Results.Less` (src/unnamed/part_000 lines 25-35):
if the first IP does not parse as IPv4 return true, else if the second does
not parse return false, else compare the 32-bit values. -/
def resultLess (a b : Result) : Bool :=
  match parseIPv4 a.IP with
  | none => true
  | some x =>
    match parseIPv4 b.IP with
    | none => false
    | some y => decide (x < y)

/-- One bubbling insertion of Go's stdlib `insertionSort` step, acting on
the reversed sorted stack: the new element moves left past every
element it compares less than. -/
def insRev (x : Result) : List Result → List Result
  | [] => [x]
  | y :: t => if resultLess x y then y :: insRev x t else x :: y :: t

/-- `sort.Sort(results)` (src/blacksheepwall.go line 515) modelled by the
stdlib's deterministic insertion-sort core over `Results.Less`. -/
def sortGo (l : List Result) : List Result :=
  (l.foldl (fun acc x => insRev x acc) []).reverse

/-- Regular expressions over character classes, used to embed the
`domainReg` pattern (src/blacksheepwall.go line 194) with standard
regular-language semantics (Go's regexp is RE2, a regular-language
matcher; the `^`/`$` anchors make `regexp.Match` a whole-string test). -/
inductive RE where
  | emp : RE
  | eps : RE
  | cls : (Char → Bool) → RE
  | cat : RE → RE → RE
  | alt : RE → RE → RE
  | star : RE → RE

/-- Whether the regular expression accepts the empty string. -/
def RE.nullable : RE → Bool
  | .emp => false
  | .eps => true
  | .cls _ => false
  | .cat a b => a.nullable && b.nullable
  | .alt a b => a.nullable || b.nullable
  | .star _ => true

/-- Brzozowski derivative of a regular expression by one character. -/
def RE.deriv (c : Char) : RE → RE
  | .emp => .emp
  | .eps => .emp
  | .cls p => if p c then .eps else .emp
  | .cat a b => if a.nullable then .alt (.cat (a.deriv c) b) (b.deriv c) else .cat (a.deriv c) b
  | .alt a b => .alt (a.deriv c) (b.deriv c)
  | .star a => .cat (a.deriv c) (.star a)

/-- Derivative-based whole-string matching. -/
def RE.matchList (r : RE) : List Char → Bool
  | [] => r.nullable
  | c :: cs => (r.deriv c).matchList cs

/-- The character class written `[a-z\d]` in `domainReg`. -/
def alnum (c : Char) : Bool := ('a' ≤ c && c ≤ 'z') || ('0' ≤ c && c ≤ '9')

/-- The character class written `[a-z\d\-]` in `domainReg`. -/
def alnumHyphen (c : Char) : Bool := alnum c || c = '-'

/-- The literal dot `\.` of `domainReg`. -/
def isDot (c : Char) : Bool := c = '.'

/-- One label of `domainReg`:
the fragment `[a-z\d]+(?:(?:[a-z\d]*)|(?:[a-z\d\-]*[a-z\d]))`. -/
def labelRE : RE :=
  .cat (.cat (.cls alnum) (.star (.cls alnum)))
    (.alt (.star (.cls alnum)) (.cat (.star (.cls alnumHyphen)) (.cls alnum)))

/-- The full `domainReg` pattern of src/blacksheepwall.go line 194:
an optional leading dot, then dot-separated labels. -/
def domainRE : RE :=
  .cat (.alt .eps (.cls isDot))
    (.cat labelRE (.star (.cat (.cls isDot) labelRE)))

/-- `regexp.Match(domainReg, hostname)` (src/blacksheepwall.go line 385);
the compile error branch never fires for this constant valid pattern. -/
def domainMatch (s : String) : Bool := domainRE.matchList s.toList

/-- Abstract DNS environment supplying the three lookups the
forward-confirmation pass performs (`bsw.LookupName`, `bsw.LookupCname`,
`bsw.LookupName6`); `none` models a call that returned an error. -/
structure DnsEnv where
  lookupName : String → Option String
  lookupCname : String → Option String
  lookupName6 : String → Option String

/-- The success test the aggregator applies to every lookup result:
`err == nil && len(s) > 0` (src/blacksheepwall.go lines 366, 370, 372, 378). -/
def lookupOk : Option String → Option String
  | some s => if 0 < s.length then some s else none
  | none => none

/-- The flags consumed by the aggregation core: `-fcrdns`, `-validate`,
`-ipv6`, `-debug` (src/blacksheepwall.go lines 206-208, 229). -/
structure Config where
  fcrdns : Bool
  validate : Bool
  ipv6 : Bool
  debug : Bool

/-- `resMap[r] = true` on the deduplicating set (src/blacksheepwall.go
line 325), materialized as the list of keys in insertion order. -/
def insertRes (s : List Result) (r : Result) : List Result :=
  if r ∈ s then s else s ++ [r]

/-- The IPv4 phase of the forward-confirmation handling of one incoming
record (src/blacksheepwall.go lines 365-376): forward IPv4 lookup of the
hostname; on failure, CNAME lookup and forward IPv4 lookup of the
canonical name; each success inserts a record with source "fcrdns" and
the original hostname. -/
def fcrdnsV4 (env : DnsEnv) (set : List Result) (r : Result) : List Result :=
  match lookupOk (env.lookupName r.Hostname) with
  | some ip => insertRes set ⟨"fcrdns", ip, r.Hostname⟩
  | none =>
    match lookupOk (env.lookupCname r.Hostname) with
    | some cfqdn =>
      match lookupOk (env.lookupName cfqdn) with
      | some ip => insertRes set ⟨"fcrdns", ip, r.Hostname⟩
      | none => set
    | none => set

/-- Forward-confirmation handling of one incoming record
(src/blacksheepwall.go lines 363-381): the IPv4 phase above followed,
unconditionally, by a forward IPv6 lookup of the hostname (lines
377-380), whose success also inserts an "fcrdns" record. -/
def fcrdnsInsert (env : DnsEnv) (set : List Result) (r : Result) : List Result :=
  match lookupOk (env.lookupName6 r.Hostname) with
  | some ip => insertRes (fcrdnsV4 env set r) ⟨"fcrdns", ip, r.Hostname⟩
  | none => fcrdnsV4 env set r

/-- Plain-mode handling of one incoming record (src/blacksheepwall.go
lines 383-390): when validation is on, drop hostnames rejected by
`domainReg`; otherwise insert the record as-is. -/
def plainInsert (validate : Bool) (set : List Result) (r : Result) : List Result :=
  if validate && !(domainMatch r.Hostname) then set else insertRes set r

/-- Per-record dispatch of the aggregator: the `*flFcrdns` branch of
src/blacksheepwall.go line 363 (note the fcrdns branch reads neither
`validate` nor `ipv6`). -/
def aggregateRecord (cfg : Config) (env : DnsEnv) (set : List Result) (r : Result) : List Result :=
  if cfg.fcrdns then fcrdnsInsert env set r else plainInsert cfg.validate set r

/-- Handling of one slice received from the results channel
(src/blacksheepwall.go lines 359-391): empty slices are skipped, the
records of a non-empty slice are processed in order. -/
def aggregateSlice (cfg : Config) (env : DnsEnv) (set : List Result) (slice : List Result) : List Result :=
  if slice.length < 1 then set else slice.foldl (aggregateRecord cfg env) set

/-- The whole aggregator run over the sequence of slices received from
the results channel, starting from the empty set. -/
def runAggregate (cfg : Config) (env : DnsEnv) (rss : List (List Result)) : List Result :=
  rss.foldl (aggregateSlice cfg env) []

/-- The final materialized sequence: the set's keys sorted with
`Results.Less` (src/blacksheepwall.go lines 510-515). -/
def finalResults (cfg : Config) (env : DnsEnv) (rss : List (List Result)) : List Result :=
  sortGo (runAggregate cfg env rss)

/-- What one worker sends to the results channel for one task outcome
(src/blacksheepwall.go lines 343-351): nothing on error, the whole
slice — empty or not — on success. -/
def workerEmits (label : String) (result : List Result) (err : Option String) : List (List Result) :=
  match err with
  | some _ => []
  | none => [result]

/-- The error log emitted for one task outcome (src/blacksheepwall.go
lines 343-345): the task label and the error text, only in debug mode. -/
def workerErrorLog (debug : Bool) (label : String) (err : Option String) : List (String × String) :=
  match err with
  | some e => if debug then [(label, e)] else []
  | none => []

/-- The outcome of one invoked task: its label, its record slice and its
optional error (the triple returned by a `task`, line 196/333). -/
structure Outcome where
  label : String
  result : List Result
  err : Option String

/-- Everything a worker sends to the results channel while draining a
sequence of task outcomes, each task invoked exactly once (the
`for def := range tasks` loop, src/blacksheepwall.go lines 332-352). -/
def workerRun (ts : List Outcome) : List (List Result) :=
  (ts.map fun t => workerEmits t.label t.result t.err).flatten

/-- Events of the producer's coordination protocol in `main`. -/
inductive Event where
  | enqueueTask : Event
  | closeTasks : Event
  | recvWorker : Event
  | closeRes : Event
  | recvAgg : Event
  | readResults : Event
deriving DecidableEq, Repr

/-- The tail of the producer's trace after the last enqueue
(src/blacksheepwall.go lines 500-512): close the tasks channel, receive
one tracker signal per worker, close the results channel, receive the
aggregator's tracker signal, then read the result set. -/
def workSuffix (n : Nat) : List Event :=
  List.replicate n .recvWorker ++ [.closeRes, .recvAgg, .readResults]

/-- The producer's full trace for n workers and m enqueued probes:
all enqueues (lines 406-496), then the shutdown suffix. -/
def producerTrace (n m : Nat) : List Event :=
  List.replicate m .enqueueTask ++ .closeTasks :: workSuffix n

/-- The timeout flag's declared default (src/blacksheepwall.go line 204). -/
def flTimeoutDefault : Int := 600

/-- The adjustment at src/blacksheepwall.go lines 247-250: a user-supplied
value is scaled from seconds to milliseconds, the default is passed
through unchanged; the result is handed to the probes in milliseconds. -/
def adjustTimeout (t : Int) : Int := if t ≠ 600 then t * 1000 else t

/-- A DNS environment in which every lookup fails. -/
def env0 : DnsEnv := ⟨fun _ => none, fun _ => none, fun _ => none⟩

/-- A DNS environment in which only the forward IPv6 lookup succeeds. -/
def env6 : DnsEnv := ⟨fun _ => none, fun _ => none, fun _ => some "2001:db8::1"⟩

/-- Flags: fcrdns on, validation off, IPv6 support off, debug off. -/
def cfgNo6 : Config := ⟨true, false, false, false⟩

/-- A sample incoming record. -/
def r0 : Result := ⟨"x", "1.2.3.4", "h"⟩

lemma self_mem_insertRes (s : List Result) (r : Result) : r ∈ insertRes s r := by
  unfold insertRes
  split
  · assumption
  · simp

lemma mem_insertRes (s : List Result) (r x : Result) (h : x ∈ insertRes s r) :
    x ∈ s ∨ x = r := by
  unfold insertRes at h
  split at h
  · exact Or.inl h
  · rcases List.mem_append.mp h with h1 | h2
    · exact Or.inl h1
    · exact Or.inr (by simpa using h2)

lemma insertRes_idem (s : List Result) (r : Result) :
    insertRes (insertRes s r) r = insertRes s r := by
  show (if r ∈ insertRes s r then insertRes s r else insertRes s r ++ [r]) = insertRes s r
  rw [if_pos (self_mem_insertRes s r)]

lemma nodup_insertRes (s : List Result) (r : Result) (h : s.Nodup) :
    (insertRes s r).Nodup := by
  unfold insertRes
  split
  · exact h
  · rename_i hr
    exact List.Nodup.append h (List.nodup_singleton r) (by simpa using hr)

lemma mem_fcrdnsV4 (env : DnsEnv) (set : List Result) (r x : Result)
    (h : x ∈ fcrdnsV4 env set r) :
    x ∈ set ∨ (x.Source = "fcrdns" ∧ x.Hostname = r.Hostname ∧
      (lookupOk (env.lookupName r.Hostname) = some x.IP ∨
        ∃ c, lookupOk (env.lookupCname r.Hostname) = some c ∧
          lookupOk (env.lookupName c) = some x.IP)) := by
  unfold fcrdnsV4 at h
  rcases hn : lookupOk (env.lookupName r.Hostname) with _ | ip
  · rw [hn] at h
    rcases hc : lookupOk (env.lookupCname r.Hostname) with _ | cfqdn
    · simp only [hc] at h
      exact Or.inl h
    · simp only [hc] at h
      rcases hn2 : lookupOk (env.lookupName cfqdn) with _ | ip2
      · simp only [hn2] at h
        exact Or.inl h
      · simp only [hn2] at h
        rcases mem_insertRes _ _ _ h with h1 | h2
        · exact Or.inl h1
        · subst h2
          exact Or.inr ⟨rfl, rfl, Or.inr ⟨cfqdn, rfl, hn2⟩⟩
  · rw [hn] at h
    rcases mem_insertRes _ _ _ h with h1 | h2
    · exact Or.inl h1
    · subst h2
      exact Or.inr ⟨rfl, rfl, Or.inl rfl⟩

lemma fcrdnsV4_of_fail (env : DnsEnv) (set : List Result) (r : Result)
    (h1 : lookupOk (env.lookupName r.Hostname) = none)
    (h2 : ∀ c, lookupOk (env.lookupCname r.Hostname) = some c →
      lookupOk (env.lookupName c) = none) :
    fcrdnsV4 env set r = set := by
  unfold fcrdnsV4
  rw [h1]
  rcases hc : lookupOk (env.lookupCname r.Hostname) with _ | cfqdn
  · rfl
  · simp only [h2 cfqdn hc]

/-- C3: in forward-confirmation mode the raw incoming record is never
inserted as-is: every entry of the updated set is either an old entry or
an "fcrdns" record carrying the original hostname and an IP produced by
a successful forward IPv4 lookup (directly or via CNAME) or forward IPv6
lookup; and a record whose hostname fails every resolution attempt
leaves the set unchanged. -/
theorem C3_fcrdns_filter (env : DnsEnv) (set : List Result) (r : Result) :
    (∀ x ∈ fcrdnsInsert env set r, x ∈ set ∨
      (x.Source = "fcrdns" ∧ x.Hostname = r.Hostname ∧
        (lookupOk (env.lookupName r.Hostname) = some x.IP ∨
          (∃ c, lookupOk (env.lookupCname r.Hostname) = some c ∧
            lookupOk (env.lookupName c) = some x.IP) ∨
          lookupOk (env.lookupName6 r.Hostname) = some x.IP))) ∧
    (lookupOk (env.lookupName r.Hostname) = none →
      (∀ c, lookupOk (env.lookupCname r.Hostname) = some c →
        lookupOk (env.lookupName c) = none) →
      lookupOk (env.lookupName6 r.Hostname) = none →
      fcrdnsInsert env set r = set) := by
  constructor
  · intro x hx
    unfold fcrdnsInsert at hx
    rcases h6 : lookupOk (env.lookupName6 r.Hostname) with _ | ip6
    · rw [h6] at hx
      rcases mem_fcrdnsV4 env set r x hx with h1 | ⟨hs, hh, hp⟩
      · exact Or.inl h1
      · exact Or.inr ⟨hs, hh, hp.imp id Or.inl⟩
    · rw [h6] at hx
      rcases mem_insertRes _ _ _ hx with h1 | h2
      · rcases mem_fcrdnsV4 env set r x h1 with h3 | ⟨hs, hh, hp⟩
        · exact Or.inl h3
        · exact Or.inr ⟨hs, hh, hp.imp id Or.inl⟩
      · subst h2
        exact Or.inr ⟨rfl, rfl, Or.inr (Or.inr rfl)⟩
  · intro h1 h2 h6
    unfold fcrdnsInsert
    rw [h6, fcrdnsV4_of_fail env set r h1 h2]

/-- Witness for C3 at a concrete input: with an environment in which
every lookup fails, processing a record leaves the set unchanged. -/
theorem C3_witness : fcrdnsInsert env0 [] r0 = [] :=
  (C3_fcrdns_filter env0 [] r0).2 rfl (fun _ _ => rfl) rfl

/-- C4 counterexample: with the -ipv6 flag off, forward-confirmation mode
still performs the forward IPv6 lookup and inserts the IPv6-derived
"fcrdns" record (src/blacksheepwall.go lines 377-380 never test flipv6). -/
theorem C4_counterexample :
    cfgNo6.ipv6 = false ∧
    (⟨"fcrdns", "2001:db8::1", "h"⟩ : Result) ∈ runAggregate cfgNo6 env6 [[r0]] := by
  constructor
  · rfl
  · decide

/-- C4 amended: in forward-confirmation mode the aggregator's behaviour is
independent of the -ipv6 flag (and of the validate and debug flags), and
whenever the forward IPv6 lookup of the incoming hostname succeeds, the
IPv6-derived "fcrdns" record is inserted — regardless of the flag. -/
theorem C4_fcrdns_ignores_ipv6_flag (env : DnsEnv) (set : List Result) (r : Result)
    (v v' i i' d d' : Bool) :
    aggregateRecord ⟨true, v, i, d⟩ env set r = aggregateRecord ⟨true, v', i', d'⟩ env set r ∧
    (∀ ip, lookupOk (env.lookupName6 r.Hostname) = some ip →
      (⟨"fcrdns", ip, r.Hostname⟩ : Result) ∈ aggregateRecord ⟨true, v, i, d⟩ env set r) := by
  constructor
  · rfl
  · intro ip h
    show _ ∈ fcrdnsInsert env set r
    unfold fcrdnsInsert
    rw [h]
    exact self_mem_insertRes _ _

/-- Witness for C4's amended theorem at a concrete input: the ipv6 flag is
false, the IPv6 lookup succeeds, and the record is inserted anyway. -/
theorem C4_witness :
    (⟨"fcrdns", "2001:db8::1", "h"⟩ : Result) ∈
      aggregateRecord ⟨true, false, false, false⟩ env6 [] r0 :=
  (C4_fcrdns_ignores_ipv6_flag env6 [] r0 false false false false false false).2
    "2001:db8::1" rfl

/-- C5: in plain mode with hostname validation enabled, a record whose
hostname fails the `domainReg` grammar (lowercase alphanumerics and
hyphens, dot-separated labels, optional leading dot, labels neither
starting nor ending with a hyphen) is dropped and a record whose hostname
matches is inserted; "bad_host!" is rejected, "sub.example.com" is
retained; and in forward-confirmation mode the validation check is never
applied (the fcrdns branch is taken before validate is consulted). -/
theorem C5_validation_filter (set : List Result) (r : Result) (env : DnsEnv) (v : Bool) :
    (domainMatch r.Hostname = false → plainInsert true set r = set) ∧
    (domainMatch r.Hostname = true → plainInsert true set r = insertRes set r) ∧
    domainMatch "bad_host!" = false ∧
    domainMatch "sub.example.com" = true ∧
    aggregateRecord ⟨true, v, false, false⟩ env set r = fcrdnsInsert env set r := by
  refine ⟨?_, ?_, by decide, by decide, rfl⟩
  · intro h
    simp [plainInsert, h]
  · intro h
    simp [plainInsert, h]

/-- Witness for C5 at concrete inputs: a record with hostname "bad_host!"
is dropped and a record with hostname "sub.example.com" is inserted. -/
theorem C5_witness :
    plainInsert true [] ⟨"x", "1.2.3.4", "bad_host!"⟩ = [] ∧
    plainInsert true [] ⟨"x", "1.2.3.4", "sub.example.com"⟩ =
      insertRes [] ⟨"x", "1.2.3.4", "sub.example.com"⟩ :=
  ⟨(C5_validation_filter [] ⟨"x", "1.2.3.4", "bad_host!"⟩ env0 false).1 (by decide),
    (C5_validation_filter [] ⟨"x", "1.2.3.4", "sub.example.com"⟩ env0 false).2.1 (by decide)⟩

/-- C7: the code's default per-probe timeout is 600 milliseconds, not the
documented 500 milliseconds (".5 seconds" in the usage text): the flag
defaults to 600 (line 204) and the seconds-to-milliseconds scaling is
skipped exactly when the value is the default 600 (lines 247-250), so the
probes receive 600 as the millisecond timeout. -/
theorem C7_timeout_default :
    adjustTimeout flTimeoutDefault = 600 ∧ adjustTimeout flTimeoutDefault ≠ 500 := by
  decide

/-- C8 counterexample: a successful probe with an empty record slice is
still forwarded to the results channel by the worker (`res <- result`
runs whenever err is nil, src/blacksheepwall.go lines 346-351); the
worker emits one message, not none. -/
theorem C8_counterexample :
    workerEmits "task" [] none = [[]] ∧
    workerEmits "task" ([] : List Result) none ≠ [] := by
  decide

/-- C8 amended: on success the worker forwards the record slice to the
results channel whether or not it is empty, and on failure it forwards
nothing; the empty slices are discarded by the aggregator on receipt
(src/blacksheepwall.go lines 359-361), so they leave the set unchanged. -/
theorem C8_worker_forwarding (label : String) (result : List Result) (e : String)
    (cfg : Config) (env : DnsEnv) (set : List Result) :
    workerEmits label result none = [result] ∧
    workerEmits label result (some e) = [] ∧
    aggregateSlice cfg env set [] = set :=
  ⟨rfl, rfl, rfl⟩

/-- C9: a failed probe contributes nothing to the results channel, is
logged together with its label exactly when the debug flag is set, and is
isolated: removing the failing task from a worker's task sequence leaves
the worker's channel output unchanged (no retry, no effect on the other
tasks). -/
theorem C9_error_isolation (label : String) (e : String) (result : List Result)
    (ts1 ts2 : List Outcome) :
    workerEmits label result (some e) = [] ∧
    workerErrorLog true label (some e) = [(label, e)] ∧
    workerErrorLog false label (some e) = [] ∧
    workerRun (ts1 ++ ⟨label, result, some e⟩ :: ts2) = workerRun ts1 ++ workerRun ts2 := by
  refine ⟨rfl, rfl, rfl, ?_⟩
  simp [workerRun, workerEmits]

lemma nodup_fcrdnsV4 (env : DnsEnv) (set : List Result) (r : Result) (h : set.Nodup) :
    (fcrdnsV4 env set r).Nodup := by
  unfold fcrdnsV4
  rcases lookupOk (env.lookupName r.Hostname) with _ | ip
  · rcases lookupOk (env.lookupCname r.Hostname) with _ | cfqdn
    · exact h
    · show (match lookupOk (env.lookupName cfqdn) with
        | some ip => insertRes set ⟨"fcrdns", ip, r.Hostname⟩
        | none => set).Nodup
      rcases lookupOk (env.lookupName cfqdn) with _ | ip2
      · exact h
      · exact nodup_insertRes _ _ h
  · exact nodup_insertRes _ _ h

lemma nodup_fcrdnsInsert (env : DnsEnv) (set : List Result) (r : Result) (h : set.Nodup) :
    (fcrdnsInsert env set r).Nodup := by
  unfold fcrdnsInsert
  rcases lookupOk (env.lookupName6 r.Hostname) with _ | ip
  · exact nodup_fcrdnsV4 env set r h
  · exact nodup_insertRes _ _ (nodup_fcrdnsV4 env set r h)

lemma nodup_plainInsert (v : Bool) (set : List Result) (r : Result) (h : set.Nodup) :
    (plainInsert v set r).Nodup := by
  unfold plainInsert
  split
  · exact h
  · exact nodup_insertRes _ _ h

lemma nodup_aggregateRecord (cfg : Config) (env : DnsEnv) (set : List Result) (r : Result)
    (h : set.Nodup) : (aggregateRecord cfg env set r).Nodup := by
  unfold aggregateRecord
  split
  · exact nodup_fcrdnsInsert env set r h
  · exact nodup_plainInsert cfg.validate set r h

lemma nodup_foldl_record (cfg : Config) (env : DnsEnv) :
    ∀ (l : List Result) (set : List Result), set.Nodup →
      (l.foldl (aggregateRecord cfg env) set).Nodup := by
  intro l
  induction l with
  | nil => intro set h; exact h
  | cons x t ih => intro set h; exact ih _ (nodup_aggregateRecord cfg env set x h)

lemma nodup_aggregateSlice (cfg : Config) (env : DnsEnv) (set : List Result)
    (slice : List Result) (h : set.Nodup) : (aggregateSlice cfg env set slice).Nodup := by
  unfold aggregateSlice
  split
  · exact h
  · exact nodup_foldl_record cfg env slice set h

lemma nodup_runAggregate (cfg : Config) (env : DnsEnv) (rss : List (List Result)) :
    (runAggregate cfg env rss).Nodup := by
  have main : ∀ (l : List (List Result)) (set : List Result), set.Nodup →
      (l.foldl (aggregateSlice cfg env) set).Nodup := by
    intro l
    induction l with
    | nil => intro set h; exact h
    | cons s t ih => intro set h; exact ih _ (nodup_aggregateSlice cfg env set s h)
  exact main rss [] List.nodup_nil

lemma insRev_perm (x : Result) : ∀ l : List Result, List.Perm (insRev x l) (x :: l) := by
  intro l
  induction l with
  | nil => exact List.Perm.refl _
  | cons y t ih =>
    unfold insRev
    split
    · exact (ih.cons y).trans (List.Perm.swap x y t)
    · exact List.Perm.refl _

lemma foldl_insRev_perm : ∀ (l acc : List Result),
    List.Perm (l.foldl (fun a x => insRev x a) acc) (acc ++ l) := by
  intro l
  induction l with
  | nil => intro acc; simp
  | cons x t ih =>
    intro acc
    show List.Perm (t.foldl _ (insRev x acc)) (acc ++ x :: t)
    refine (ih (insRev x acc)).trans ?_
    refine (((insRev_perm x acc).append_right t)).trans ?_
    exact List.perm_middle.symm

lemma sortGo_perm (l : List Result) : List.Perm (sortGo l) l := by
  unfold sortGo
  refine (List.reverse_perm _).trans ?_
  simpa using foldl_insRev_perm l []

/-- C1: for every run — any flag configuration, any DNS environment, any
sequence of slices received from the results channel — the final
materialized and sorted sequence contains no two entries with an
identical (source, ip, hostname) triple (records are exactly such
triples, so Nodup is that statement), each record occurs at most once,
and insertion into the deduplicating set is idempotent. -/
theorem C1_dedup_invariant (cfg : Config) (env : DnsEnv) (rss : List (List Result))
    (s : List Result) (r : Result) :
    (finalResults cfg env rss).Nodup ∧
    (finalResults cfg env rss).count r ≤ 1 ∧
    insertRes (insertRes s r) r = insertRes s r := by
  have hnd : (runAggregate cfg env rss).Nodup := nodup_runAggregate cfg env rss
  have h1 : (finalResults cfg env rss).Nodup :=
    (sortGo_perm (runAggregate cfg env rss)).nodup_iff.mpr hnd
  exact ⟨h1, List.nodup_iff_count_le_one.mp h1 r, insertRes_idem s r⟩

lemma resultLess_none (x y : Result) (h : parseIPv4 x.IP = none) :
    resultLess x y = true := by
  simp [resultLess, h]

lemma resultLess_some_none (x y : Result) (u : Nat) (hx : parseIPv4 x.IP = some u)
    (hy : parseIPv4 y.IP = none) : resultLess x y = false := by
  simp [resultLess, hx, hy]

lemma resultLess_some_some (x y : Result) (u v : Nat) (hx : parseIPv4 x.IP = some u)
    (hy : parseIPv4 y.IP = some v) : resultLess x y = decide (u < v) := by
  simp [resultLess, hx, hy]

lemma insRev_of_none (x : Result) (h : parseIPv4 x.IP = none) :
    ∀ l : List Result, insRev x l = l ++ [x] := by
  intro l
  induction l with
  | nil => rfl
  | cons y t ih => simp [insRev, resultLess_none x y h, ih]

lemma insRev_parsed (x : Result) (u : Nat) (hx : parseIPv4 x.IP = some u) :
    ∀ (p q : List Result), (∀ r ∈ q, parseIPv4 r.IP = none) →
      (∀ r ∈ p, (parseIPv4 r.IP).isSome) →
      List.Chain' (fun a b => ipVal b ≤ ipVal a) p →
      ∃ p2, insRev x (p ++ q) = p2 ++ q ∧
        (∀ r ∈ p2, (parseIPv4 r.IP).isSome) ∧
        List.Chain' (fun a b => ipVal b ≤ ipVal a) p2 ∧
        (∀ z, p2.head? = some z → p.head? = some z ∨ z = x) := by
  intro p
  induction p with
  | nil =>
    intro q hq _ _
    refine ⟨[x], ?_, ?_, ?_, ?_⟩
    · cases q with
      | nil => rfl
      | cons y t =>
        have hy : parseIPv4 y.IP = none := hq y (by simp)
        show insRev x (y :: t) = x :: y :: t
        simp [insRev, resultLess_some_none x y u hx hy]
    · intro r hr
      have : r = x := by simpa using hr
      subst this
      simp [hx]
    · simp
    · intro z hz
      have : z = x := by simpa using hz.symm
      exact Or.inr this
  | cons z p3 ih =>
    intro q hq hp hchain
    have hz : (parseIPv4 z.IP).isSome := hp z (by simp)
    obtain ⟨w, hw⟩ := Option.isSome_iff_exists.mp hz
    by_cases hlt : u < w
    · have hless : resultLess x z = true := by
        rw [resultLess_some_some x z u w hx hw]
        simpa using hlt
      obtain ⟨p2, heq, hall, hch, hhead⟩ :=
        ih q hq (fun r hr => hp r (by simp [hr])) hchain.tail
      refine ⟨z :: p2, ?_, ?_, ?_, ?_⟩
      · show insRev x (z :: (p3 ++ q)) = z :: (p2 ++ q)
        simp [insRev, hless, heq]
      · intro r hr
        rcases List.mem_cons.mp hr with h1 | h2
        · subst h1; exact hz
        · exact hall r h2
      · refine List.chain'_cons'.mpr ⟨?_, hch⟩
        intro b hb
        rcases hhead b hb with h1 | h2
        · exact (List.chain'_cons'.mp hchain).1 b h1
        · subst h2
          have e1 : ipVal b = u := by simp [ipVal, hx]
          have e2 : ipVal z = w := by simp [ipVal, hw]
          rw [e1, e2]
          omega
      · intro z' hz'
        have : z' = z := by simpa using hz'.symm
        subst this
        exact Or.inl rfl
    · have hless : resultLess x z = false := by
        rw [resultLess_some_some x z u w hx hw]
        simpa using hlt
      refine ⟨x :: z :: p3, ?_, ?_, ?_, ?_⟩
      · show insRev x (z :: (p3 ++ q)) = x :: z :: (p3 ++ q)
        simp [insRev, hless]
      · intro r hr
        rcases List.mem_cons.mp hr with h1 | h2
        · subst h1; simp [hx]
        · exact hp r h2
      · refine List.chain'_cons'.mpr ⟨?_, hchain⟩
        intro b hb
        have hbz : z = b := by simpa using hb
        subst hbz
        have e1 : ipVal x = u := by simp [ipVal, hx]
        have e2 : ipVal z = w := by simp [ipVal, hw]
        rw [e1, e2]
        omega
      · intro z' hz'
        have : z' = x := by simpa using hz'.symm
        exact Or.inr this

/-- The invariant maintained on the reversed accumulator of `sortGo`:
a run of parsed entries in descending value order followed by a run of
non-parsing entries. -/
def goodStack (l : List Result) : Prop :=
  ∃ p q, l = p ++ q ∧ (∀ r ∈ p, (parseIPv4 r.IP).isSome) ∧
    (∀ r ∈ q, parseIPv4 r.IP = none) ∧
    List.Chain' (fun a b => ipVal b ≤ ipVal a) p

lemma goodStack_insRev (x : Result) (l : List Result) (h : goodStack l) :
    goodStack (insRev x l) := by
  obtain ⟨p, q, rfl, hp, hq, hchain⟩ := h
  rcases hx : parseIPv4 x.IP with _ | u
  · rw [insRev_of_none x hx]
    refine ⟨p, q ++ [x], by simp, hp, ?_, hchain⟩
    intro r hr
    rcases List.mem_append.mp hr with h1 | h2
    · exact hq r h1
    · have : r = x := by simpa using h2
      subst this
      exact hx
  · obtain ⟨p2, heq, hall, hch, _⟩ := insRev_parsed x u hx p q hq hp hchain
    exact ⟨p2, q, heq, hall, hq, hch⟩

lemma goodStack_foldl : ∀ (l acc : List Result), goodStack acc →
    goodStack (l.foldl (fun a x => insRev x a) acc) := by
  intro l
  induction l with
  | nil => intro acc h; exact h
  | cons x t ih => intro acc h; exact ih _ (goodStack_insRev x acc h)

/-- C6: after sorting with the `Results.Less` ordering, the sequence
splits as a block of entries whose IP field does not parse as an IPv4
dotted quad followed by a block of entries whose IP field parses, and
within the parsed block the 32-bit values are ascending (non-strictly,
since distinct records may carry the same IP) for every adjacent pair;
nothing is claimed about the order inside the non-parsing block. -/
theorem C6_sort_partition (rs : List Result) :
    ∃ bad good, sortGo rs = bad ++ good ∧
      (∀ r ∈ bad, parseIPv4 r.IP = none) ∧
      (∀ r ∈ good, (parseIPv4 r.IP).isSome) ∧
      List.Chain' (fun a b => ipVal a ≤ ipVal b) good := by
  obtain ⟨p, q, heq, hp, hq, hchain⟩ :=
    goodStack_foldl rs [] ⟨[], [], rfl, by simp, by simp, List.chain'_nil⟩
  refine ⟨q.reverse, p.reverse, ?_, ?_, ?_, ?_⟩
  · unfold sortGo
    rw [heq, List.reverse_append]
  · intro r hr
    exact hq r (List.mem_reverse.mp hr)
  · intro r hr
    exact hp r (List.mem_reverse.mp hr)
  · rw [List.chain'_reverse]
    exact hchain

/-- Witness for C6 at a concrete input: an IPv6 literal sorts in front of
the two parsed IPv4 records. -/
theorem C6_witness :
    ∃ bad good,
      sortGo [⟨"a", "9.9.9.9", "h1"⟩, ⟨"b", "::1", "h2"⟩, ⟨"c", "1.2.3.4", "h3"⟩] =
        bad ++ good ∧
      (∀ r ∈ bad, parseIPv4 r.IP = none) ∧
      (∀ r ∈ good, (parseIPv4 r.IP).isSome) ∧
      List.Chain' (fun a b => ipVal a ≤ ipVal b) good :=
  C6_sort_partition [⟨"a", "9.9.9.9", "h1"⟩, ⟨"b", "::1", "h2"⟩, ⟨"c", "1.2.3.4", "h3"⟩]

lemma workSuffix_getElem? (n i : Nat) :
    (workSuffix n)[i]? =
      if i < n then some .recvWorker
      else if i = n then some .closeRes
      else if i = n + 1 then some .recvAgg
      else if i = n + 2 then some .readResults
      else none := by
  induction n generalizing i with
  | zero =>
    match i with
    | 0 => rfl
    | 1 => rfl
    | 2 => rfl
    | (k+3) => simp [workSuffix]
  | succ n ih =>
    match i with
    | 0 => simp [workSuffix, List.replicate_succ]
    | (k+1) =>
      have h : (workSuffix (n+1))[k+1]? = (workSuffix n)[k]? := by
        simp [workSuffix, List.replicate_succ]
      rw [h, ih k]
      split_ifs <;> simp_all <;> omega

set_option maxHeartbeats 1000000 in
lemma producerTrace_getElem? (n m i : Nat) :
    (producerTrace n m)[i]? =
      if i < m then some .enqueueTask
      else if i = m then some .closeTasks
      else if i < m + 1 + n then some .recvWorker
      else if i = m + 1 + n then some .closeRes
      else if i = m + 2 + n then some .recvAgg
      else if i = m + 3 + n then some .readResults
      else none := by
  induction m generalizing i with
  | zero =>
    match i with
    | 0 => simp [producerTrace]
    | (k+1) =>
      have h : (producerTrace n 0)[k+1]? = (workSuffix n)[k]? := by
        simp [producerTrace]
      rw [h, workSuffix_getElem? n k]
      split_ifs <;> simp_all <;> omega
  | succ m ih =>
    match i with
    | 0 => simp [producerTrace, List.replicate_succ]
    | (k+1) =>
      have h : (producerTrace n (m+1))[k+1]? = (producerTrace n m)[k]? := by
        simp [producerTrace, List.replicate_succ]
      rw [h, ih k]
      split_ifs <;> simp_all <;> omega

lemma producerTrace_count_recvWorker (n m : Nat) :
    (producerTrace n m).count .recvWorker = n := by
  simp [producerTrace, workSuffix, List.count_append, List.count_cons, List.count_replicate]

lemma producerTrace_count_recvAgg (n m : Nat) :
    (producerTrace n m).count .recvAgg = 1 := by
  simp [producerTrace, workSuffix, List.count_append, List.count_cons, List.count_replicate]

/-- C2: for every number of workers n and number of enqueued probes m,
the producer's coordination trace contains exactly n worker completion
signals and exactly 1 aggregator completion signal, the task-channel
close sits at position m (after all enqueues, before every worker
signal), the worker signals occupy exactly positions m+1 .. m+n, the
results-channel close sits at position m+1+n (after every worker
signal), the aggregator signal at position m+2+n, and the read of the
result set at position m+3+n, last of all — the happens-before chain
n worker signals, then close results, then 1 aggregator signal, then
read. -/
theorem C2_shutdown_protocol (n m : Nat) :
    (producerTrace n m).count .recvWorker = n ∧
    (producerTrace n m).count .recvAgg = 1 ∧
    (∀ i, (producerTrace n m)[i]? = some .closeTasks ↔ i = m) ∧
    (∀ i, (producerTrace n m)[i]? = some .recvWorker ↔ m + 1 ≤ i ∧ i ≤ m + n) ∧
    (∀ i, (producerTrace n m)[i]? = some .closeRes ↔ i = m + 1 + n) ∧
    (∀ i, (producerTrace n m)[i]? = some .recvAgg ↔ i = m + 2 + n) ∧
    (∀ i, (producerTrace n m)[i]? = some .readResults ↔ i = m + 3 + n) := by
  refine ⟨producerTrace_count_recvWorker n m, producerTrace_count_recvAgg n m,
    ?_, ?_, ?_, ?_, ?_⟩
  all_goals intro i
  all_goals rw [producerTrace_getElem? n m i]
  all_goals split_ifs <;> simp_all <;> omega

/-- Witness for C2 at a concrete input: one worker, zero probes. -/
theorem C2_witness :
    (producerTrace 1 0).count Event.recvWorker = 1 ∧
    (producerTrace 1 0).count Event.recvAgg = 1 ∧
    ((producerTrace 1 0)[2]? = some Event.closeRes ↔ 2 = 0 + 1 + 1) :=
  ⟨(C2_shutdown_protocol 1 0).1, (C2_shutdown_protocol 1 0).2.1,
    (C2_shutdown_protocol 1 0).2.2.2.2.1 2⟩

/-- C10: on any two records whose IP fields both fail to parse as IPv4,
the `Results.Less` comparator returns true in both directions, and it
returns true even when comparing such a record with itself — so it is
not a strict weak ordering on those entries. -/
theorem C10_less_not_strict_weak_order (a b : Result)
    (ha : parseIPv4 a.IP = none) (hb : parseIPv4 b.IP = none) :
    resultLess a b = true ∧ resultLess b a = true ∧ resultLess a a = true := by
  simp [resultLess, ha, hb]

/-- Witness for C10 at concrete inputs: two IPv6-literal records. -/
theorem C10_witness :
    parseIPv4 "2001:db8::1" = none ∧ parseIPv4 "::2" = none ∧
    (resultLess ⟨"tls", "2001:db8::1", "h1"⟩ ⟨"tls", "::2", "h2"⟩ = true ∧
      resultLess ⟨"tls", "::2", "h2"⟩ ⟨"tls", "2001:db8::1", "h1"⟩ = true ∧
      resultLess ⟨"tls", "2001:db8::1", "h1"⟩ ⟨"tls", "2001:db8::1", "h1"⟩ = true) :=
  ⟨by decide, by decide,
    C10_less_not_strict_weak_order ⟨"tls", "2001:db8::1", "h1"⟩ ⟨"tls", "::2", "h2"⟩
      (by decide) (by decide)⟩

end BSW
